import Mathlib

set_option maxHeartbeats 1000000
set_option linter.unusedVariables false
set_option linter.unnecessarySeqFocus false

namespace Paging

/-- The Memory structure of src/memory.h: total size, page size, and the page
table. An entry of -1 marks a free frame, any other value is the id of the
owning process. The C field total_pages is represented by page_table.length
(the code keeps it equal to total_memory / page_size). -/
structure Memory where
  total_memory : Nat
  page_size : Nat
  page_table : List Int
deriving DecidableEq, Repr

/-- init_memory (src/memory.c:19-29): a page table of total_memory / page_size
frames, all free. -/
def init_memory (total_memory page_size : Nat) : Memory :=
  { total_memory := total_memory
    page_size := page_size
    page_table := List.replicate (total_memory / page_size) (-1) }

/-- Pages needed for one piece (src/memory.c:68-69):
(size + page_size - 1) / page_size, i.e. the ceiling for positive page_size. -/
def pagesFor (page_size sz : Nat) : Nat := (sz + page_size - 1) / page_size

/-- total_pages_needed (src/memory.c:66-71): sum of pagesFor over the pieces. -/
def totalPagesNeeded (page_size : Nat) (piece_sizes : List Nat) : Nat :=
  (piece_sizes.map (pagesFor page_size)).sum

/-- The free-page count of src/memory.c:74-79: the number of -1 entries. -/
def countFree (t : List Int) : Nat := t.count (-1)

/-- The inner first-fit scan of allocate_memory (src/memory.c:92-98): walk the
page table in ascending index order and claim free frames for process_id until
pages_needed have been claimed; returns the updated table together with the
final pages_allocated counter. -/
def claimLoop (process_id : Int) : List Int → Nat → List Int × Nat
  | [], _ => ([], 0)
  | v :: rest, need =>
    if need = 0 then (v :: rest, 0)
    else if v = -1 then
      let r := claimLoop process_id rest (need - 1)
      (process_id :: r.1, r.2 + 1)
    else
      let r := claimLoop process_id rest need
      (v :: r.1, r.2)

/-- Freeing every frame owned by process_id: the body both of
deallocate_memory (src/memory.c:135-140) and of the rollback path of
allocate_memory (src/memory.c:103-107). -/
def releaseFrames (process_id : Int) (t : List Int) : List Int :=
  t.map (fun v => if v = process_id then -1 else v)

/-- The per-segment allocation loop of allocate_memory (src/memory.c:87-110):
claim pages for each piece in turn; if a piece comes up short, roll back every
frame tagged process_id and fail (status 0), otherwise succeed (status 1). -/
def allocSegments (process_id : Int) (page_size : Nat) :
    List Nat → List Int → Nat × List Int
  | [], t => (1, t)
  | sz :: rest, t =>
    let need := pagesFor page_size sz
    let r := claimLoop process_id t need
    if r.2 < need then (0, releaseFrames process_id r.1)
    else allocSegments process_id page_size rest r.1

/-- allocate_memory (src/memory.c:64-113): compute total_pages_needed, count
the free pages, fail with no mutation if there are too few, otherwise allocate
first-fit segment by segment. Returns (status, new memory) with status 1 on
success and 0 on failure. -/
def allocate_memory (m : Memory) (process_id : Int) (piece_sizes : List Nat) :
    Nat × Memory :=
  let needed := totalPagesNeeded m.page_size piece_sizes
  if countFree m.page_table < needed then (0, m)
  else
    let r := allocSegments process_id m.page_size piece_sizes m.page_table
    (r.1, { m with page_table := r.2 })

/-- deallocate_memory (src/memory.c:133-141): free every frame owned by
process_id. -/
def deallocate_memory (m : Memory) (process_id : Int) : Memory :=
  { m with page_table := releaseFrames process_id m.page_table }

/-- One printed line of the memory map (src/memory.c:160-198): either a
coalesced range of free frames or a single owned frame with its per-process
page number. -/
inductive Span where
  | free (firstAddr lastAddr : Nat)
  | owned (firstAddr lastAddr : Nat) (process_id : Int) (page : Nat)
deriving DecidableEq, Repr

/-- The loop of print_memory_map (src/memory.c:163-197), with the local
page_number array made explicit as a counter function and the free-range start
as an Option. Returns the spans together with the final counters. -/
def mapLoop (page_size : Nat) :
    (Int → Nat) → Option Nat → Nat → List Int → List Span × (Int → Nat)
  | counts, startAcc, i, [] =>
    (match startAcc with
     | some st => [Span.free st (i * page_size - 1)]
     | none => [], counts)
  | counts, startAcc, i, v :: rest =>
    if v = -1 then
      mapLoop page_size counts
        (match startAcc with
         | some st => some st
         | none => some (i * page_size)) (i + 1) rest
    else
      let counts1 := fun q => if q = v then counts q + 1 else counts q
      let r := mapLoop page_size counts1 none (i + 1) rest
      ((match startAcc with
        | some st => [Span.free st (i * page_size - 1)]
        | none => []) ++
        Span.owned (i * page_size) ((i + 1) * page_size - 1) v (counts1 v) :: r.1,
       r.2)

/-- print_memory_map (src/memory.c:160-198). The page counters start at zero
on every call: int page_number[1000] = \x7b0\x7d is local to the function. -/
def print_memory_map (m : Memory) (page_size : Nat) : List Span :=
  (mapLoop page_size (fun _ => 0) none 0 m.page_table).1

/-- Modelled from the spec: section 4.1 describe with "a separate per-process
page-index counter for reporting that persists across admit/release cycles" —
the same scan as print_memory_map, but the counters are supplied by the caller
and returned for the next call instead of restarting at zero. -/
def describeCumulative (m : Memory) (page_size : Nat) (counts : Int → Nat) :
    List Span × (Int → Nat) :=
  mapLoop page_size counts none 0 m.page_table

/-- A process record (src/parser.h): id, arrival time, lifetime and the sizes
of its memory pieces. -/
structure Proc where
  id : Int
  arrival_time : Nat
  lifetime : Nat
  piece_sizes : List Nat
deriving DecidableEq, Repr

/-- The mutable state of main's loop (src/main.c:51-139): the memory, the
input queue, each process's start_time (none for the C sentinel -1), the
turnaround accumulator and the completion count. -/
structure SimState where
  mem : Memory
  queue : List Proc
  start : List (Option Nat)
  total_turnaround : Nat
  completed : Nat
deriving DecidableEq, Repr

/-- The completion scan (src/main.c:80-101): for each process, paired with its
start time, whose start_time is set and whose start + lifetime equals the
clock, deallocate its memory and accumulate turnaround and completion count. -/
def completionsStep (clock : Nat) :
    Memory → Nat → Nat → List (Proc × Option Nat) → Memory × Nat × Nat
  | mem, turn, comp, [] => (mem, turn, comp)
  | mem, turn, comp, (p, st) :: rest =>
    match st with
    | some t =>
      if t + p.lifetime = clock then
        completionsStep clock (deallocate_memory mem p.id)
          (turn + (clock - p.arrival_time)) (comp + 1) rest
      else completionsStep clock mem turn comp rest
    | none => completionsStep clock mem turn comp rest

/-- Recording a start time (src/main.c:111-116): set the start of the first
process whose id matches, leave every other entry alone. -/
def setStart : List Proc → List (Option Nat) → Int → Nat → List (Option Nat)
  | [], st, _, _ => st
  | _ :: _, [], _, _ => []
  | p :: ps, s :: ss, pid, clock =>
    if p.id = pid then some clock :: ss
    else s :: setStart ps ss pid clock

/-- The admission drain (src/main.c:104-135): repeatedly try the front of the
queue; on success record its start time and dequeue; on the first failure stop
for this tick, keeping the memory allocate_memory returned. -/
def drain (procs : List Proc) (clock : Nat) :
    Memory → List Proc → List (Option Nat) →
      Memory × List Proc × List (Option Nat)
  | mem, [], start => (mem, [], start)
  | mem, p :: rest, start =>
    let r := allocate_memory mem p.id p.piece_sizes
    if r.1 ≠ 0 then
      drain procs clock r.2 rest (setStart procs start p.id clock)
    else (r.2, p :: rest, start)

/-- One iteration of main's while loop at a given clock (src/main.c:61-139):
arrivals are enqueued in process-table order, completions release their
memory, then the queue is drained front-first. -/
def tick (procs : List Proc) (clock : Nat) (s : SimState) : SimState :=
  let q1 := s.queue ++ procs.filter (fun p => p.arrival_time == clock)
  let c := completionsStep clock s.mem s.total_turnaround s.completed
    (procs.zip s.start)
  let d := drain procs clock c.1 q1 s.start
  { mem := d.1, queue := d.2.1, start := d.2.2,
    total_turnaround := c.2.1, completed := c.2.2 }

/-- The state reached before executing the tick with clock = n: n iterations
of the loop from the initial state (src/main.c:51-61). -/
def simSteps (procs : List Proc) (total_memory page_size : Nat) : Nat → SimState
  | 0 =>
    { mem := init_memory total_memory page_size
      queue := []
      start := List.replicate procs.length none
      total_turnaround := 0
      completed := 0 }
  | n + 1 => tick procs n (simSteps procs total_memory page_size n)

/-- The state after the whole loop: the clock ran over 0..100000
(src/main.c:61), so 100001 iterations. -/
def runSim (procs : List Proc) (total_memory page_size : Nat) : SimState :=
  simSteps procs total_memory page_size 100001

/-- The final report (src/main.c:142-147): the average turnaround when any
process completed, the explicit no-completions line otherwise. -/
inductive Report where
  | average (value : ℚ) : Report
  | noCompletions : Report
deriving DecidableEq, Repr

/-- src/main.c:142-147: guard the division by the completion count. -/
def finalReport (s : SimState) : Report :=
  if 0 < s.completed then
    Report.average ((s.total_turnaround : ℚ) / (s.completed : ℚ))
  else Report.noCompletions

theorem countFree_nil : countFree [] = 0 := rfl

theorem countFree_cons_free (t : List Int) :
    countFree ((-1 : Int) :: t) = countFree t + 1 := by
  simp [countFree]

theorem countFree_cons_used (v : Int) (hv : v ≠ -1) (t : List Int) :
    countFree (v :: t) = countFree t := by
  simp [countFree, List.count_cons_of_ne (Ne.symm hv)]

theorem claimLoop_nil (pid : Int) (n : Nat) : claimLoop pid [] n = ([], 0) := rfl

theorem claimLoop_zero (pid : Int) (t : List Int) : claimLoop pid t 0 = (t, 0) := by
  cases t <;> simp [claimLoop]

theorem claimLoop_succ_free (pid : Int) (rest : List Int) (k : Nat) :
    claimLoop pid (-1 :: rest) (k + 1) =
      (pid :: (claimLoop pid rest k).1, (claimLoop pid rest k).2 + 1) := by
  simp [claimLoop]

theorem claimLoop_succ_used (pid v : Int) (hv : v ≠ -1) (rest : List Int) (k : Nat) :
    claimLoop pid (v :: rest) (k + 1) =
      (v :: (claimLoop pid rest (k + 1)).1, (claimLoop pid rest (k + 1)).2) := by
  simp [claimLoop, hv]

theorem claimLoop_length (pid : Int) (t : List Int) (n : Nat) :
    (claimLoop pid t n).1.length = t.length := by
  induction t generalizing n with
  | nil => simp [claimLoop_nil]
  | cons v rest ih =>
    cases n with
    | zero => simp [claimLoop_zero]
    | succ k =>
      by_cases hv : v = -1
      · subst hv; simp [claimLoop_succ_free, ih]
      · simp [claimLoop_succ_used pid v hv, ih]

theorem claimLoop_snd (pid : Int) (t : List Int) (n : Nat) :
    (claimLoop pid t n).2 = min n (countFree t) := by
  induction t generalizing n with
  | nil => simp [claimLoop_nil, countFree_nil]
  | cons v rest ih =>
    cases n with
    | zero => simp [claimLoop_zero]
    | succ k =>
      by_cases hv : v = -1
      · subst hv
        rw [claimLoop_succ_free, countFree_cons_free]
        simp only [ih]
        omega
      · rw [claimLoop_succ_used pid v hv, countFree_cons_used v hv, ih]

theorem claimLoop_getElem? (pid : Int) (t : List Int) (n j : Nat) :
    (claimLoop pid t n).1[j]? =
      (t[j]?).map (fun v => if v = -1 ∧ countFree (t.take j) < n then pid else v) := by
  induction t generalizing n j with
  | nil => simp [claimLoop_nil]
  | cons v rest ih =>
    cases n with
    | zero =>
      rw [claimLoop_zero]
      cases h : (v :: rest)[j]? <;> simp [h]
    | succ k =>
      by_cases hv : v = -1
      · subst hv
        cases j with
        | zero => simp [claimLoop_succ_free, countFree_nil]
        | succ j =>
          rw [claimLoop_succ_free]
          simp only [List.getElem?_cons_succ, List.take_succ_cons,
            countFree_cons_free, ih, Nat.add_lt_add_iff_right]
      · cases j with
        | zero => simp [claimLoop_succ_used pid v hv, hv]
        | succ j =>
          rw [claimLoop_succ_used pid v hv]
          simp only [List.getElem?_cons_succ, List.take_succ_cons,
            countFree_cons_used v hv, ih]

theorem claimLoop_count_self (pid : Int) (hpid : pid ≠ -1) (t : List Int) (n : Nat) :
    (claimLoop pid t n).1.count pid = t.count pid + min n (countFree t) := by
  induction t generalizing n with
  | nil => simp [claimLoop_nil, countFree_nil]
  | cons v rest ih =>
    cases n with
    | zero => simp [claimLoop_zero]
    | succ k =>
      by_cases hv : v = -1
      · subst hv
        rw [claimLoop_succ_free, countFree_cons_free, List.count_cons_self,
          List.count_cons_of_ne hpid, ih]
        omega
      · rw [claimLoop_succ_used pid v hv, countFree_cons_used v hv,
          List.count_cons, List.count_cons, ih]
        omega

theorem claimLoop_count_free (pid : Int) (hpid : pid ≠ -1) (t : List Int) (n : Nat) :
    countFree (claimLoop pid t n).1 = countFree t - min n (countFree t) := by
  induction t generalizing n with
  | nil => simp [claimLoop_nil, countFree_nil]
  | cons v rest ih =>
    cases n with
    | zero => simp [claimLoop_zero]
    | succ k =>
      by_cases hv : v = -1
      · subst hv
        rw [claimLoop_succ_free, countFree_cons_free, countFree_cons_used pid hpid, ih]
        omega
      · rw [claimLoop_succ_used pid v hv, countFree_cons_used v hv,
          countFree_cons_used v hv, ih]

theorem claimLoop_count_other (pid q : Int) (hq1 : q ≠ pid) (hq2 : q ≠ -1)
    (t : List Int) (n : Nat) :
    (claimLoop pid t n).1.count q = t.count q := by
  induction t generalizing n with
  | nil => simp [claimLoop_nil]
  | cons v rest ih =>
    cases n with
    | zero => simp [claimLoop_zero]
    | succ k =>
      by_cases hv : v = -1
      · subst hv
        rw [claimLoop_succ_free, List.count_cons_of_ne hq1,
          List.count_cons_of_ne hq2, ih]
      · rw [claimLoop_succ_used pid v hv, List.count_cons, List.count_cons, ih]

theorem claimLoop_comp (pid : Int) (hpid : pid ≠ -1) (t : List Int) (n m : Nat) :
    (claimLoop pid (claimLoop pid t n).1 m).1 = (claimLoop pid t (n + m)).1 := by
  induction t generalizing n m with
  | nil => simp [claimLoop_nil]
  | cons v rest ih =>
    cases n with
    | zero => simp [claimLoop_zero]
    | succ k =>
      cases m with
      | zero => simp [claimLoop_zero]
      | succ j =>
        by_cases hv : v = -1
        · subst hv
          rw [claimLoop_succ_free]
          have hk : k + 1 + (j + 1) = (k + (j + 1)) + 1 := by omega
          rw [hk, claimLoop_succ_free, claimLoop_succ_used pid pid hpid, ih]
        · rw [claimLoop_succ_used pid v hv]
          have hk : k + 1 + (j + 1) = (k + 1 + (j + 1) - 1) + 1 := by omega
          rw [hk, claimLoop_succ_used pid v hv, claimLoop_succ_used pid v hv, ih]
          have : k + 1 + (j + 1) - 1 + 1 = k + 1 + (j + 1) := by omega
          rw [this]

theorem totalPagesNeeded_cons (ps sz : Nat) (rest : List Nat) :
    totalPagesNeeded ps (sz :: rest) = pagesFor ps sz + totalPagesNeeded ps rest := by
  simp [totalPagesNeeded]

theorem allocSegments_eq (pid : Int) (hpid : pid ≠ -1) (ps : Nat)
    (pieces : List Nat) (t : List Int)
    (h : totalPagesNeeded ps pieces ≤ countFree t) :
    allocSegments pid ps pieces t = (1, (claimLoop pid t (totalPagesNeeded ps pieces)).1) := by
  induction pieces generalizing t with
  | nil => simp [allocSegments, totalPagesNeeded, claimLoop_zero]
  | cons sz rest ih =>
    rw [totalPagesNeeded_cons] at h ⊢
    have hneed : pagesFor ps sz ≤ countFree t := by omega
    have hsnd : (claimLoop pid t (pagesFor ps sz)).2 = pagesFor ps sz := by
      rw [claimLoop_snd]; omega
    have hrest : totalPagesNeeded ps rest ≤ countFree (claimLoop pid t (pagesFor ps sz)).1 := by
      rw [claimLoop_count_free pid hpid]
      omega
    have hlt : ¬((claimLoop pid t (pagesFor ps sz)).2 < pagesFor ps sz) := by
      rw [hsnd]; exact lt_irrefl _
    simp only [allocSegments, if_neg hlt]
    rw [ih _ hrest, claimLoop_comp pid hpid]

theorem allocate_memory_eq (m : Memory) (pid : Int) (hpid : pid ≠ -1)
    (pieces : List Nat) :
    allocate_memory m pid pieces =
      if countFree m.page_table < totalPagesNeeded m.page_size pieces then (0, m)
      else (1, { m with page_table :=
        (claimLoop pid m.page_table (totalPagesNeeded m.page_size pieces)).1 }) := by
  by_cases h : countFree m.page_table < totalPagesNeeded m.page_size pieces
  · simp [allocate_memory, h]
  · simp only [allocate_memory, if_neg h]
    rw [allocSegments_eq pid hpid _ _ _ (by omega)]

theorem releaseFrames_cons (pid v : Int) (t : List Int) :
    releaseFrames pid (v :: t) =
      (if v = pid then -1 else v) :: releaseFrames pid t := by
  simp [releaseFrames]

theorem releaseFrames_count_self (pid : Int) (hpid : pid ≠ -1) (t : List Int) :
    (releaseFrames pid t).count pid = 0 := by
  induction t with
  | nil => simp [releaseFrames]
  | cons v rest ih =>
    rw [releaseFrames_cons, List.count_cons, ih]
    by_cases hv : v = pid <;> simp [hv, Ne.symm hpid, hpid]

theorem releaseFrames_count_other (pid q : Int) (hq1 : q ≠ pid) (hq2 : q ≠ -1)
    (t : List Int) : (releaseFrames pid t).count q = t.count q := by
  induction t with
  | nil => simp [releaseFrames]
  | cons v rest ih =>
    rw [releaseFrames_cons, List.count_cons, List.count_cons, ih]
    by_cases hv : v = pid <;> simp [hv, Ne.symm hq1, Ne.symm hq2]

theorem count_cons_split (pid v : Int) (rest : List Int)
    (h : (v :: rest).count pid = 0) : v ≠ pid ∧ rest.count pid = 0 := by
  rw [List.count_cons] at h
  constructor
  · intro hv
    subst hv
    simp at h
  · by_cases hb : (v == pid) = true <;> simp [hb] at h <;> omega

theorem releaseFrames_of_count_zero (pid : Int) (t : List Int)
    (h : t.count pid = 0) : releaseFrames pid t = t := by
  induction t with
  | nil => rfl
  | cons v rest ih =>
    obtain ⟨hv, hrest⟩ := count_cons_split pid v rest h
    rw [releaseFrames_cons, if_neg hv, ih hrest]

theorem releaseFrames_claimLoop (pid : Int) (t : List Int) (n : Nat)
    (h : t.count pid = 0) : releaseFrames pid (claimLoop pid t n).1 = t := by
  induction t generalizing n with
  | nil => simp [claimLoop_nil, releaseFrames]
  | cons v rest ih =>
    obtain ⟨hv, hrest⟩ := count_cons_split pid v rest h
    cases n with
    | zero =>
      rw [claimLoop_zero]
      exact releaseFrames_of_count_zero pid _ h
    | succ k =>
      by_cases hfree : v = -1
      · subst hfree
        rw [claimLoop_succ_free]
        simp [releaseFrames_cons, ih _ hrest]
      · rw [claimLoop_succ_used pid v hfree]
        rw [releaseFrames_cons, if_neg hv, ih _ hrest]

theorem allocate_memory_preserves_shape (m : Memory) (pid : Int) (hpid : pid ≠ -1)
    (pieces : List Nat) :
    (allocate_memory m pid pieces).2.page_size = m.page_size ∧
    (allocate_memory m pid pieces).2.total_memory = m.total_memory ∧
    (allocate_memory m pid pieces).2.page_table.length = m.page_table.length := by
  rw [allocate_memory_eq m pid hpid pieces]
  split <;> simp [claimLoop_length]

theorem releaseFrames_length (pid : Int) (t : List Int) :
    (releaseFrames pid t).length = t.length := by
  simp [releaseFrames]

/-- C1: if allocate_memory returns 0 for a process that owns no frames, the
whole Memory structure, the page table included, is unchanged: the free-frame
pre-check fails without mutating, and the defensive rollback path is never
reached. The process id is not the free sentinel -1 (process ids are
positive). -/
theorem allocate_fail_leaves_memory_unchanged (m : Memory) (pid : Int)
    (pieces : List Nat) (hps : 0 < m.page_size) (hpid : pid ≠ -1)
    (hown : m.page_table.count pid = 0)
    (hfail : (allocate_memory m pid pieces).1 = 0) :
    (allocate_memory m pid pieces).2 = m := by
  rw [allocate_memory_eq m pid hpid pieces] at hfail ⊢
  by_cases h : countFree m.page_table < totalPagesNeeded m.page_size pieces
  · rw [if_pos h]
  · rw [if_neg h] at hfail
    simp at hfail

/-- C1 witness: one owned frame, a two-page request fails and the memory is
byte-for-byte unchanged. -/
theorem allocate_fail_leaves_memory_unchanged_witness :
    0 < (Memory.mk 100 100 [7]).page_size ∧ (5 : Int) ≠ -1 ∧
    (Memory.mk 100 100 [7]).page_table.count 5 = 0 ∧
    (allocate_memory (Memory.mk 100 100 [7]) 5 [200]).1 = 0 ∧
    (allocate_memory (Memory.mk 100 100 [7]) 5 [200]).2 = Memory.mk 100 100 [7] :=
  ⟨by decide, by decide, by decide, by decide,
    allocate_fail_leaves_memory_unchanged (Memory.mk 100 100 [7]) 5 [200]
      (by decide) (by decide) (by decide) (by decide)⟩

/-- C4: allocate_memory returns 1 exactly when the number of free page-table
entries is at least total_pages_needed, the sum over the pieces of
ceil(size / page_size); when the free frames are insufficient it returns 0
with no other effect (the function is total: it never aborts). -/
theorem allocate_succeeds_iff_enough_free (m : Memory) (pid : Int)
    (pieces : List Nat) (hps : 0 < m.page_size) (hpid : pid ≠ -1) :
    ((allocate_memory m pid pieces).1 = 1 ↔
      totalPagesNeeded m.page_size pieces ≤ countFree m.page_table) ∧
    (countFree m.page_table < totalPagesNeeded m.page_size pieces →
      allocate_memory m pid pieces = (0, m)) := by
  rw [allocate_memory_eq m pid hpid pieces]
  by_cases h : countFree m.page_table < totalPagesNeeded m.page_size pieces
  · rw [if_pos h]
    constructor
    · constructor
      · intro h1
        simp at h1
      · intro h1
        omega
    · intro _
      rfl
  · rw [if_neg h]
    constructor
    · constructor
      · intro _
        omega
      · intro _
        rfl
    · intro h1
      omega

/-- C4 witness: two free frames, a 150 KB piece needs two pages and is
admitted. -/
theorem allocate_succeeds_iff_enough_free_witness :
    0 < (Memory.mk 200 100 [-1, -1]).page_size ∧ (9 : Int) ≠ -1 ∧
    (((allocate_memory (Memory.mk 200 100 [-1, -1]) 9 [150]).1 = 1 ↔
      totalPagesNeeded 100 [150] ≤ countFree [-1, -1]) ∧
    (countFree [-1, -1] < totalPagesNeeded 100 [150] →
      allocate_memory (Memory.mk 200 100 [-1, -1]) 9 [150] =
        (0, Memory.mk 200 100 [-1, -1]))) :=
  ⟨by decide, by decide,
    allocate_succeeds_iff_enough_free (Memory.mk 200 100 [-1, -1]) 9 [150]
      (by decide) (by decide)⟩

/-- C5: on success for a process owning no frames, exactly
total_pages_needed frames are claimed, namely the lowest-indexed free frames
(a free frame is claimed iff fewer than total_pages_needed free frames sit
below it), and every other entry is unchanged. -/
theorem allocate_success_first_fit (m : Memory) (pid : Int) (pieces : List Nat)
    (hps : 0 < m.page_size) (hpid : pid ≠ -1)
    (hown : m.page_table.count pid = 0)
    (hsucc : (allocate_memory m pid pieces).1 = 1) :
    (allocate_memory m pid pieces).2.page_table.count pid =
      totalPagesNeeded m.page_size pieces ∧
    ∀ j v, m.page_table[j]? = some v →
      (allocate_memory m pid pieces).2.page_table[j]? =
        some (if v = -1 ∧ countFree (m.page_table.take j) <
            totalPagesNeeded m.page_size pieces then pid else v) := by
  rw [allocate_memory_eq m pid hpid pieces] at hsucc ⊢
  by_cases h : countFree m.page_table < totalPagesNeeded m.page_size pieces
  · rw [if_pos h] at hsucc
    simp at hsucc
  · rw [if_neg h]
    constructor
    · simp only [claimLoop_count_self pid hpid, hown]
      omega
    · intro j v hv
      rw [claimLoop_getElem?, hv]
      rfl

/-- C5 witness: frame 0 is owned by 7, the two pages for a 150 KB piece land
in the two lowest free frames 1 and 2. -/
theorem allocate_success_first_fit_witness :
    0 < (Memory.mk 300 100 [7, -1, -1]).page_size ∧ (9 : Int) ≠ -1 ∧
    (Memory.mk 300 100 [7, -1, -1]).page_table.count 9 = 0 ∧
    (allocate_memory (Memory.mk 300 100 [7, -1, -1]) 9 [150]).1 = 1 ∧
    (allocate_memory (Memory.mk 300 100 [7, -1, -1]) 9 [150]).2.page_table.count 9 =
      totalPagesNeeded 100 [150] :=
  ⟨by decide, by decide, by decide, by decide,
    (allocate_success_first_fit (Memory.mk 300 100 [7, -1, -1]) 9 [150]
      (by decide) (by decide) (by decide) (by decide)).1⟩

/-- C6: for a process owning no frames, allocate_memory followed by
deallocate_memory restores the Memory structure exactly, whether or not the
allocation succeeded. -/
theorem admit_release_roundtrip (m : Memory) (pid : Int) (pieces : List Nat)
    (hps : 0 < m.page_size) (hpid : pid ≠ -1)
    (hown : m.page_table.count pid = 0) :
    deallocate_memory (allocate_memory m pid pieces).2 pid = m := by
  rw [allocate_memory_eq m pid hpid pieces]
  by_cases h : countFree m.page_table < totalPagesNeeded m.page_size pieces
  · rw [if_pos h]
    show { m with page_table := releaseFrames pid m.page_table } = m
    rw [releaseFrames_of_count_zero pid _ hown]
  · rw [if_neg h]
    show { m with page_table :=
      releaseFrames pid (claimLoop pid m.page_table
        (totalPagesNeeded m.page_size pieces)).1 } = m
    rw [releaseFrames_claimLoop pid _ _ hown]

/-- C6 witness: admit then release of process 9 around an occupied frame. -/
theorem admit_release_roundtrip_witness :
    0 < (Memory.mk 200 100 [3, -1]).page_size ∧ (9 : Int) ≠ -1 ∧
    (Memory.mk 200 100 [3, -1]).page_table.count 9 = 0 ∧
    deallocate_memory (allocate_memory (Memory.mk 200 100 [3, -1]) 9 [100]).2 9 =
      Memory.mk 200 100 [3, -1] :=
  ⟨by decide, by decide, by decide,
    admit_release_roundtrip (Memory.mk 200 100 [3, -1]) 9 [100]
      (by decide) (by decide) (by decide)⟩

/-- C10: neither allocate_memory nor deallocate_memory for a process touches a
page-table entry whose value is neither the free mark -1 nor that process's
id: frames of other processes are never modified, on success or failure. -/
theorem foreign_frames_untouched (m : Memory) (pid : Int) (pieces : List Nat)
    (hpid : pid ≠ -1) (j : Nat) (v : Int)
    (hv : m.page_table[j]? = some v) (h1 : v ≠ -1) (h2 : v ≠ pid) :
    (allocate_memory m pid pieces).2.page_table[j]? = some v ∧
    (deallocate_memory m pid).page_table[j]? = some v := by
  constructor
  · rw [allocate_memory_eq m pid hpid pieces]
    by_cases h : countFree m.page_table < totalPagesNeeded m.page_size pieces
    · rw [if_pos h]
      exact hv
    · rw [if_neg h]
      show (claimLoop pid m.page_table
        (totalPagesNeeded m.page_size pieces)).1[j]? = some v
      rw [claimLoop_getElem?, hv]
      simp [h1]
  · show (releaseFrames pid m.page_table)[j]? = some v
    rw [releaseFrames, List.getElem?_map, hv]
    simp [h2]

/-- C10 witness: process 5's operations leave process 7's frame alone. -/
theorem foreign_frames_untouched_witness :
    (5 : Int) ≠ -1 ∧ (Memory.mk 200 100 [7, -1]).page_table[0]? = some 7 ∧
    (7 : Int) ≠ -1 ∧ (7 : Int) ≠ 5 ∧
    ((allocate_memory (Memory.mk 200 100 [7, -1]) 5 [100]).2.page_table[0]? = some 7 ∧
      (deallocate_memory (Memory.mk 200 100 [7, -1]) 5).page_table[0]? = some 7) :=
  ⟨by decide, by decide, by decide, by decide,
    foreign_frames_untouched (Memory.mk 200 100 [7, -1]) 5 [100]
      (by decide) 0 7 (by decide) (by decide) (by decide)⟩

theorem mapLoop_cons_free (ps : Nat) (counts : Int → Nat) (sa : Option Nat)
    (i : Nat) (rest : List Int) :
    mapLoop ps counts sa i ((-1 : Int) :: rest) =
      mapLoop ps counts
        (match sa with
         | some st => some st
         | none => some (i * ps)) (i + 1) rest := by
  simp [mapLoop]

theorem mapLoop_cons_owned (ps : Nat) (counts : Int → Nat) (sa : Option Nat)
    (i : Nat) (rest : List Int) (w : Int) (hw : w ≠ -1) :
    mapLoop ps counts sa i (w :: rest) =
      ((match sa with
        | some st => [Span.free st (i * ps - 1)]
        | none => []) ++
        Span.owned (i * ps) ((i + 1) * ps - 1) w
            ((fun q => if q = w then counts q + 1 else counts q) w) ::
          (mapLoop ps (fun q => if q = w then counts q + 1 else counts q)
            none (i + 1) rest).1,
       (mapLoop ps (fun q => if q = w then counts q + 1 else counts q)
         none (i + 1) rest).2) := by
  simp [mapLoop, hw]

theorem mapLoop_owned_mem (ps : Nat) (t : List Int) :
    ∀ (counts : Int → Nat) (sa : Option Nat) (i j : Nat) (v : Int),
      t[j]? = some v → v ≠ -1 →
      Span.owned ((i + j) * ps) ((i + j + 1) * ps - 1) v
          (counts v + (t.take j).count v + 1) ∈ (mapLoop ps counts sa i t).1 := by
  induction t with
  | nil =>
    intro counts sa i j v hv _
    simp at hv
  | cons w rest ih =>
    intro counts sa i j v hv hfree
    by_cases hw : w = -1
    · subst hw
      cases j with
      | zero =>
        rw [List.getElem?_cons_zero] at hv
        injection hv with hv
        exact absurd hv.symm hfree
      | succ j =>
        rw [List.getElem?_cons_succ] at hv
        rw [mapLoop_cons_free]
        have hmem := ih counts
          (match sa with
           | some st => some st
           | none => some (i * ps)) (i + 1) j v hv hfree
        have h1 : i + 1 + j = i + (j + 1) := by omega
        rw [h1] at hmem
        rw [List.take_succ_cons, List.count_cons_of_ne hfree]
        exact hmem
    · rw [mapLoop_cons_owned ps counts sa i rest w hw]
      cases j with
      | zero =>
        rw [List.getElem?_cons_zero] at hv
        injection hv with hv
        subst hv
        simp only [List.take_zero, List.count_nil, Nat.add_zero, Nat.zero_add,
          if_pos rfl]
        apply List.mem_append_right
        apply List.mem_cons_self
      | succ j =>
        rw [List.getElem?_cons_succ] at hv
        have hmem := ih (fun q => if q = w then counts q + 1 else counts q)
          none (i + 1) j v hv hfree
        have h1 : i + 1 + j = i + (j + 1) := by omega
        rw [h1] at hmem
        apply List.mem_append_right
        apply List.mem_cons_of_mem
        rw [List.take_succ_cons]
        by_cases hvw : v = w
        · subst hvw
          rw [List.count_cons_self]
          convert hmem using 3
          simp
          try ring
        · rw [List.count_cons_of_ne hvw]
          convert hmem using 3
          simp [hvw]
          try ring

/-- C7 counterexample: process 5 owns frame 0 and the first report prints it
as Page 1. After a release and two admissions process 5 owns frame 1 — the
second frame it has ever owned — yet print_memory_map prints Page 1 again,
because its counter array is a per-call local; the spec-modelled cumulative
describe prints Page 2 there, and the two outputs differ. -/
theorem memory_map_counter_reset_counterexample :
    print_memory_map (Memory.mk 200 100 [5, -1]) 100 =
      [Span.owned 0 99 5 1, Span.free 100 199] ∧
    (allocate_memory
      (allocate_memory (deallocate_memory (Memory.mk 200 100 [5, -1]) 5)
        9 [100]).2 5 [100]).2 = Memory.mk 200 100 [9, 5] ∧
    print_memory_map (Memory.mk 200 100 [9, 5]) 100 =
      [Span.owned 0 99 9 1, Span.owned 100 199 5 1] ∧
    (describeCumulative (Memory.mk 200 100 [9, 5]) 100
      (describeCumulative (Memory.mk 200 100 [5, -1]) 100 (fun _ => 0)).2).1 =
      [Span.owned 0 99 9 1, Span.owned 100 199 5 2] ∧
    print_memory_map (Memory.mk 200 100 [9, 5]) 100 ≠
      (describeCumulative (Memory.mk 200 100 [9, 5]) 100
        (describeCumulative (Memory.mk 200 100 [5, -1]) 100 (fun _ => 0)).2).1 := by
  refine ⟨by decide, by decide, by decide, by decide, by decide⟩

/-- C7 amended: print_memory_map is a pure function of the current table; the
page number attached to an owned frame is the 1-based ordinal of that frame
among the frames its process owns in the current table (the count of that id
below the frame, plus one), recomputed from scratch on every call rather than
accumulated across admit/release cycles. -/
theorem memory_map_page_numbers_per_call (m : Memory) (ps : Nat) (j : Nat)
    (v : Int) (hv : m.page_table[j]? = some v) (hfree : v ≠ -1) :
    Span.owned (j * ps) ((j + 1) * ps - 1) v
        ((m.page_table.take j).count v + 1) ∈ print_memory_map m ps := by
  have h := mapLoop_owned_mem ps m.page_table (fun _ => 0) none 0 j v hv hfree
  simpa using h

/-- C7 amended witness: with table [7, 5, 5], frame 2 is process 5's second
frame in the current table and is printed as Page 2. -/
theorem memory_map_page_numbers_per_call_witness :
    (Memory.mk 300 100 [7, 5, 5]).page_table[2]? = some 5 ∧ (5 : Int) ≠ -1 ∧
    Span.owned 200 299 5 2 ∈ print_memory_map (Memory.mk 300 100 [7, 5, 5]) 100 := by
  refine ⟨by decide, by decide, ?_⟩
  have h := memory_map_page_numbers_per_call (Memory.mk 300 100 [7, 5, 5]) 100
    2 5 (by decide) (by decide)
  simpa using h

/-- C3: when the front process of the queue fails to be admitted, the drain
stops at once: the queue and the start times are returned untouched (and the
memory is exactly what allocate_memory left), so no process behind the head is
admitted during the tick, whether or not it would fit. -/
theorem drain_stops_at_first_failure (procs : List Proc) (clock : Nat)
    (mem : Memory) (start : List (Option Nat)) (p : Proc) (rest : List Proc)
    (hfail : (allocate_memory mem p.id p.piece_sizes).1 = 0) :
    drain procs clock mem (p :: rest) start =
      ((allocate_memory mem p.id p.piece_sizes).2, p :: rest, start) := by
  simp [drain, hfail]

/-- C3 witness: the head needs one frame of an empty table and fails; the
process behind it would need zero pages, yet the drain returns the queue
unchanged. -/
theorem drain_stops_at_first_failure_witness :
    (allocate_memory (Memory.mk 0 100 []) (1 : Int) [100]).1 = 0 ∧
    drain [] 0 (Memory.mk 0 100 []) [Proc.mk 1 0 1 [100], Proc.mk 2 0 1 []] [] =
      ((allocate_memory (Memory.mk 0 100 []) (1 : Int) [100]).2,
        [Proc.mk 1 0 1 [100], Proc.mk 2 0 1 []], []) :=
  ⟨by decide,
    drain_stops_at_first_failure [] 0 (Memory.mk 0 100 [])
      [] (Proc.mk 1 0 1 [100]) [Proc.mk 2 0 1 []] (by decide)⟩

/-- C8: after the loop the program reports total_turnaround divided by the
completion count when the completion count is positive, and the explicit
no-completions report when it is zero — it never divides by zero. -/
theorem final_report_guards_division (procs : List Proc) (tm ps : Nat) :
    (0 < (runSim procs tm ps).completed →
      finalReport (runSim procs tm ps) =
        Report.average (((runSim procs tm ps).total_turnaround : ℚ) /
          ((runSim procs tm ps).completed : ℚ))) ∧
    ((runSim procs tm ps).completed = 0 →
      finalReport (runSim procs tm ps) = Report.noCompletions) := by
  constructor
  · intro h
    rw [finalReport, if_pos h]
  · intro h
    rw [finalReport, if_neg (by omega)]

theorem simSteps_nil_state (tm ps : Nat) (n : Nat) :
    (simSteps [] tm ps n).queue = [] ∧ (simSteps [] tm ps n).completed = 0 := by
  induction n with
  | zero => exact ⟨rfl, rfl⟩
  | succ k ih =>
    show ((tick [] k (simSteps [] tm ps k)).queue = [] ∧
      (tick [] k (simSteps [] tm ps k)).completed = 0)
    obtain ⟨hq, hc⟩ := ih
    rw [tick]
    simp only [List.filter_nil, List.append_nil, List.zip_nil_left, hq]
    exact ⟨rfl, hc⟩

/-- C8 witness: the empty workload completes nothing and the run ends with the
explicit no-completions report. -/
theorem final_report_guards_division_witness :
    (runSim [] 100 100).completed = 0 ∧
    finalReport (runSim [] 100 100) = Report.noCompletions :=
  ⟨(simSteps_nil_state 100 100 100001).2,
    (final_report_guards_division [] 100 100).2 (simSteps_nil_state 100 100 100001).2⟩

/-- C9: a process whose request (two pages) exceeds the whole table (one
frame) is never admitted: after every tick it is still queued with nothing
completed, and at the tick bound the program's only output path yields the
ordinary no-completions summary — main has no distinct non-termination
report. -/
theorem tick_bound_exhaustion_unreported :
    (∀ n, 1 ≤ n →
      (simSteps [Proc.mk 1 0 1 [2]] 1 1 n).queue = [Proc.mk 1 0 1 [2]] ∧
      (simSteps [Proc.mk 1 0 1 [2]] 1 1 n).completed = 0 ∧
      finalReport (simSteps [Proc.mk 1 0 1 [2]] 1 1 n) = Report.noCompletions) ∧
    (runSim [Proc.mk 1 0 1 [2]] 1 1).queue = [Proc.mk 1 0 1 [2]] ∧
    finalReport (runSim [Proc.mk 1 0 1 [2]] 1 1) = Report.noCompletions := by
  have s1 : simSteps [Proc.mk 1 0 1 [2]] 1 1 1 =
      SimState.mk (Memory.mk 1 1 [-1]) [Proc.mk 1 0 1 [2]] [none] 0 0 := rfl
  have key : ∀ k, simSteps [Proc.mk 1 0 1 [2]] 1 1 (k + 1) =
      simSteps [Proc.mk 1 0 1 [2]] 1 1 1 := by
    intro k
    induction k with
    | zero => rfl
    | succ j ih =>
      show tick [Proc.mk 1 0 1 [2]] (j + 1)
        (simSteps [Proc.mk 1 0 1 [2]] 1 1 (j + 1)) = _
      rw [ih, s1]
      have harr : (((Proc.mk 1 0 1 [2]).arrival_time : Nat) == j + 1) = false := by
        simp
      simp [tick, harr, completionsStep, drain, allocate_memory, totalPagesNeeded,
        pagesFor, countFree, setStart]
  have main : ∀ n, 1 ≤ n →
      (simSteps [Proc.mk 1 0 1 [2]] 1 1 n).queue = [Proc.mk 1 0 1 [2]] ∧
      (simSteps [Proc.mk 1 0 1 [2]] 1 1 n).completed = 0 ∧
      finalReport (simSteps [Proc.mk 1 0 1 [2]] 1 1 n) = Report.noCompletions := by
    intro n hn
    obtain ⟨k, rfl⟩ : ∃ k, n = k + 1 := ⟨n - 1, by omega⟩
    rw [key k]
    exact ⟨rfl, rfl, rfl⟩
  exact ⟨main, (main 100001 (by omega)).1, (main 100001 (by omega)).2.2⟩

/-- C9 witness: already after the first tick the oversized process sits in the
queue with zero completions and the no-completions report. -/
theorem tick_bound_exhaustion_unreported_witness :
    1 ≤ 1 ∧
    ((simSteps [Proc.mk 1 0 1 [2]] 1 1 1).queue = [Proc.mk 1 0 1 [2]] ∧
      (simSteps [Proc.mk 1 0 1 [2]] 1 1 1).completed = 0 ∧
      finalReport (simSteps [Proc.mk 1 0 1 [2]] 1 1 1) = Report.noCompletions) :=
  ⟨by decide, tick_bound_exhaustion_unreported.1 1 (by decide)⟩

/-- Pages a process needs: the sum of ceil(piece / page_size) over its pieces. -/
def procNeeds (ps : Nat) (p : Proc) : Nat := totalPagesNeeded ps p.piece_sizes

/-- Per-process accounting after the ticks with clocks 0..bound-1 have run: an
unstarted process owns no frames; a started one started before bound, after
arriving, and owns exactly its page need while its completion tick has not
been processed and nothing afterwards. -/
def startOk (ps bound : Nat) (table : List Int) (p : Proc) (st : Option Nat) :
    Prop :=
  match st with
  | none => table.count p.id = 0
  | some t => t < bound ∧ p.arrival_time ≤ t ∧
      table.count p.id = (if bound ≤ t + p.lifetime then procNeeds ps p else 0)

/-- Well-formed workload: positive page size, positive unique process ids,
positive lifetimes (spec section 3). -/
structure Wf (procs : List Proc) (ps : Nat) : Prop where
  ps_pos : 0 < ps
  id_pos : ∀ p ∈ procs, 0 < p.id
  life_pos : ∀ p ∈ procs, 0 < p.lifetime
  ids_nodup : (procs.map Proc.id).Nodup

/-- The loop invariant over the components main mutates, at bound = number of
ticks executed. -/
structure Inv (procs : List Proc) (tm ps bound : Nat) (mem : Memory)
    (queue : List Proc) (start : List (Option Nat)) : Prop where
  ps_eq : mem.page_size = ps
  len_eq : mem.page_table.length = tm / ps
  start_len : start.length = procs.length
  ok : ∀ (i : Nat) (p : Proc) (st : Option Nat), procs[i]? = some p →
    start[i]? = some st → startOk ps bound mem.page_table p st
  qmem : ∀ p ∈ queue, p.arrival_time < bound ∧
    ∃ i : Nat, procs[i]? = some p ∧ start[i]? = some none
  qnodup : (queue.map Proc.id).Nodup

theorem ids_index_inj (procs : List Proc) (hnd : (procs.map Proc.id).Nodup)
    {i j : Nat} {p q : Proc} (hi : procs[i]? = some p) (hj : procs[j]? = some q)
    (hid : p.id = q.id) : i = j := by
  have hi' : (procs.map Proc.id)[i]? = some p.id := by
    rw [List.getElem?_map, hi]
    rfl
  have hj' : (procs.map Proc.id)[j]? = some q.id := by
    rw [List.getElem?_map, hj]
    rfl
  obtain ⟨hlt, _⟩ := List.getElem?_eq_some.1 hi'
  exact List.getElem?_inj hlt hnd (by rw [hi', hj', hid])

theorem mem_of_index (procs : List Proc) {i : Nat} {p : Proc}
    (hi : procs[i]? = some p) : p ∈ procs :=
  List.mem_iff_getElem?.2 ⟨i, hi⟩

theorem setStart_eq_set (procs : List Proc) (hnd : (procs.map Proc.id).Nodup) :
    ∀ (start : List (Option Nat)) (i : Nat) (p : Proc) (c : Nat),
      procs[i]? = some p → start.length = procs.length →
      setStart procs start p.id c = start.set i (some c) := by
  induction procs with
  | nil =>
    intro start i p c hp _
    simp at hp
  | cons p0 ptl ih =>
    intro start i p c hp hlen
    cases start with
    | nil => simp at hlen
    | cons s0 stl =>
      cases i with
      | zero =>
        rw [List.getElem?_cons_zero] at hp
        injection hp with hp
        subst hp
        simp [setStart]
      | succ k =>
        rw [List.getElem?_cons_succ] at hp
        have hp0 : p0.id ≠ p.id := by
          intro he
          have hmem : p ∈ ptl := mem_of_index ptl hp
          have hin : p.id ∈ ptl.map Proc.id := List.mem_map_of_mem _ hmem
          rw [List.map_cons, List.nodup_cons] at hnd
          exact hnd.1 (he ▸ hin)
        have hnd' : (ptl.map Proc.id).Nodup := by
          rw [List.map_cons, List.nodup_cons] at hnd
          exact hnd.2
        have hlen' : stl.length = ptl.length := by
          simpa using hlen
        have hstep : setStart (p0 :: ptl) (s0 :: stl) p.id c =
            s0 :: setStart ptl stl p.id c := by
          simp [setStart, hp0]
        rw [hstep, ih hnd' stl k p c hp hlen', List.set_cons_succ]

/-- Whether a (process, start) pair completes at this clock
(src/main.c:84-86). -/
def firesAt (clock : Nat) (pr : Proc × Option Nat) : Bool :=
  match pr.2 with
  | some t => t + pr.1.lifetime == clock
  | none => false

theorem deallocate_shape (m : Memory) (pid : Int) :
    (deallocate_memory m pid).page_size = m.page_size ∧
    (deallocate_memory m pid).page_table.length = m.page_table.length :=
  ⟨rfl, releaseFrames_length pid m.page_table⟩

theorem completionsStep_shape (clock : Nat) :
    ∀ (pairs : List (Proc × Option Nat)) (mem : Memory) (turn comp : Nat),
      (completionsStep clock mem turn comp pairs).1.page_size = mem.page_size ∧
      (completionsStep clock mem turn comp pairs).1.page_table.length =
        mem.page_table.length := by
  intro pairs
  induction pairs with
  | nil =>
    intro mem turn comp
    exact ⟨rfl, rfl⟩
  | cons pr rest ih =>
    intro mem turn comp
    obtain ⟨p, st⟩ := pr
    cases st with
    | none =>
      have hstep : completionsStep clock mem turn comp ((p, none) :: rest) =
          completionsStep clock mem turn comp rest := by
        simp [completionsStep]
      rw [hstep]
      exact ih mem turn comp
    | some t =>
      by_cases hf : t + p.lifetime = clock
      · have hstep : completionsStep clock mem turn comp ((p, some t) :: rest) =
            completionsStep clock (deallocate_memory mem p.id)
              (turn + (clock - p.arrival_time)) (comp + 1) rest := by
          simp [completionsStep, hf]
        rw [hstep]
        obtain ⟨h1, h2⟩ := ih (deallocate_memory mem p.id)
          (turn + (clock - p.arrival_time)) (comp + 1)
        exact ⟨by rw [h1, (deallocate_shape mem p.id).1],
          by rw [h2, (deallocate_shape mem p.id).2]⟩
      · have hstep : completionsStep clock mem turn comp ((p, some t) :: rest) =
            completionsStep clock mem turn comp rest := by
          simp [completionsStep, hf]
        rw [hstep]
        exact ih mem turn comp

theorem completionsStep_count (clock : Nat) (q : Int) (hq : q ≠ -1) :
    ∀ (pairs : List (Proc × Option Nat)) (mem : Memory) (turn comp : Nat),
      (completionsStep clock mem turn comp pairs).1.page_table.count q =
        if pairs.any (fun pr => pr.1.id == q && firesAt clock pr) then 0
        else mem.page_table.count q := by
  intro pairs
  induction pairs with
  | nil =>
    intro mem turn comp
    simp [completionsStep]
  | cons pr rest ih =>
    intro mem turn comp
    obtain ⟨p, st⟩ := pr
    cases st with
    | none =>
      have hstep : completionsStep clock mem turn comp ((p, none) :: rest) =
          completionsStep clock mem turn comp rest := by
        simp [completionsStep]
      have hfb : firesAt clock (p, none) = false := rfl
      rw [hstep, ih mem turn comp, List.any_cons, hfb]
      simp only [Bool.and_false, Bool.false_or]
    | some t =>
      by_cases hf : t + p.lifetime = clock
      · have hstep : completionsStep clock mem turn comp ((p, some t) :: rest) =
            completionsStep clock (deallocate_memory mem p.id)
              (turn + (clock - p.arrival_time)) (comp + 1) rest := by
          simp [completionsStep, hf]
        rw [hstep, ih (deallocate_memory mem p.id)
          (turn + (clock - p.arrival_time)) (comp + 1)]
        have hfb : firesAt clock (p, some t) = true := by
          simp [firesAt, hf]
        by_cases hpq : p.id = q
        · have hbq : (p.id == q) = true := by
            simp [hpq]
          have hdeal : (deallocate_memory mem p.id).page_table.count q = 0 := by
            rw [hpq]
            exact releaseFrames_count_self q (hpq ▸ hq) mem.page_table
          rw [List.any_cons, hbq, hfb, hdeal]
          simp only [Bool.true_and, Bool.true_or, if_true, ite_self]
        · have hbq : (p.id == q) = false := by
            simp [hpq]
          have hdeal : (deallocate_memory mem p.id).page_table.count q =
              mem.page_table.count q :=
            releaseFrames_count_other p.id q (fun he => hpq he.symm) hq
              mem.page_table
          rw [List.any_cons, hbq, hdeal]
          simp only [Bool.false_and, Bool.false_or]
      · have hstep : completionsStep clock mem turn comp ((p, some t) :: rest) =
            completionsStep clock mem turn comp rest := by
          simp [completionsStep, hf]
        have hfb : firesAt clock (p, some t) = false := by
          simp [firesAt, hf]
        rw [hstep, ih mem turn comp, List.any_cons, hfb]
        simp only [Bool.and_false, Bool.false_or]

theorem completions_preserve_startOk (procs : List Proc) (ps clock : Nat)
    (wf : Wf procs ps) (mem : Memory) (start : List (Option Nat))
    (turn comp : Nat)
    (hok : ∀ (i : Nat) (p : Proc) (st : Option Nat), procs[i]? = some p →
      start[i]? = some st → startOk ps clock mem.page_table p st) :
    ∀ (i : Nat) (p : Proc) (st : Option Nat), procs[i]? = some p →
      start[i]? = some st →
      startOk ps (clock + 1)
        (completionsStep clock mem turn comp (procs.zip start)).1.page_table
        p st := by
  intro i p st hp hst
  have hpmem : p ∈ procs := mem_of_index procs hp
  have hqid : p.id ≠ -1 := by
    have := wf.id_pos p hpmem
    omega
  have hcount := completionsStep_count clock p.id hqid (procs.zip start)
    mem turn comp
  have hany : ((procs.zip start).any
        fun pr => pr.1.id == p.id && firesAt clock pr) = true ↔
      ∃ t, st = some t ∧ t + p.lifetime = clock := by
    constructor
    · intro h
      obtain ⟨pr, hprmem, hpred⟩ := List.any_eq_true.1 h
      obtain ⟨pp, pst⟩ := pr
      obtain ⟨j, hj⟩ := List.getElem?_of_mem hprmem
      obtain ⟨hj1, hj2⟩ := List.getElem?_zip_eq_some.1 hj
      rw [Bool.and_eq_true] at hpred
      have hid : pp.id = p.id := beq_iff_eq.1 hpred.1
      have hij : j = i := ids_index_inj procs wf.ids_nodup hj1 hp hid
      subst hij
      rw [hp] at hj1
      injection hj1 with hj1
      rw [hst] at hj2
      injection hj2 with hj2
      subst hj1
      subst hj2
      cases st with
      | none => exact absurd hpred.2 (by simp [firesAt])
      | some t =>
        refine ⟨t, rfl, ?_⟩
        have := hpred.2
        simp only [firesAt] at this
        exact beq_iff_eq.1 this
    · rintro ⟨t, rfl, hfire⟩
      apply List.any_eq_true.2
      refine ⟨(p, some t), ?_, ?_⟩
      · exact List.mem_iff_getElem?.2
          ⟨i, List.getElem?_zip_eq_some.2 ⟨hp, hst⟩⟩
      · simp [firesAt, hfire]
  have hok_i := hok i p st hp hst
  cases st with
  | none =>
    have hnofire : ¬((procs.zip start).any
        fun pr => pr.1.id == p.id && firesAt clock pr) = true := by
      intro h
      obtain ⟨t, ht, _⟩ := hany.1 h
      exact Option.noConfusion ht
    show (completionsStep clock mem turn comp
      (procs.zip start)).1.page_table.count p.id = 0
    rw [hcount, if_neg hnofire]
    exact hok_i
  | some t =>
    obtain ⟨ht1, ht2, ht3⟩ := hok_i
    by_cases hfire : t + p.lifetime = clock
    · have hyes := hany.2 ⟨t, rfl, hfire⟩
      refine ⟨by omega, ht2, ?_⟩
      rw [hcount, if_pos hyes, if_neg (by omega)]
    · have hnofire : ¬((procs.zip start).any
          fun pr => pr.1.id == p.id && firesAt clock pr) = true := by
        intro h
        obtain ⟨t2, he, hf2⟩ := hany.1 h
        injection he with he
        exact hfire (he ▸ hf2)
      refine ⟨by omega, ht2, ?_⟩
      rw [hcount, if_neg hnofire]
      by_cases hrun : clock ≤ t + p.lifetime
      · rw [if_pos (by omega : clock + 1 ≤ t + p.lifetime)]
        rw [if_pos hrun] at ht3
        exact ht3
      · rw [if_neg (by omega : ¬(clock + 1 ≤ t + p.lifetime))]
        rw [if_neg hrun] at ht3
        exact ht3

theorem drain_preserves (procs : List Proc) (ps L clock : Nat)
    (wf : Wf procs ps) :
    ∀ (queue : List Proc) (mem : Memory) (start : List (Option Nat)),
      mem.page_size = ps → mem.page_table.length = L →
      start.length = procs.length →
      (∀ (i : Nat) (p : Proc) (st : Option Nat), procs[i]? = some p →
        start[i]? = some st → startOk ps (clock + 1) mem.page_table p st) →
      (∀ p ∈ queue, p.arrival_time < clock + 1 ∧
        ∃ i : Nat, procs[i]? = some p ∧ start[i]? = some none) →
      (queue.map Proc.id).Nodup →
      (drain procs clock mem queue start).1.page_size = ps ∧
      (drain procs clock mem queue start).1.page_table.length = L ∧
      (drain procs clock mem queue start).2.2.length = procs.length ∧
      (∀ (i : Nat) (p : Proc) (st : Option Nat), procs[i]? = some p →
        (drain procs clock mem queue start).2.2[i]? = some st →
        startOk ps (clock + 1)
          (drain procs clock mem queue start).1.page_table p st) ∧
      (∀ p ∈ (drain procs clock mem queue start).2.1,
        p.arrival_time < clock + 1 ∧
        ∃ i : Nat, procs[i]? = some p ∧
          (drain procs clock mem queue start).2.2[i]? = some none) ∧
      ((drain procs clock mem queue start).2.1.map Proc.id).Nodup := by
  intro queue
  induction queue with
  | nil =>
    intro mem start h1 h2 h3 h4 h5 h6
    simp only [drain]
    exact ⟨h1, h2, h3, h4, by simp, by simp⟩
  | cons p rest ih =>
    intro mem start h1 h2 h3 h4 h5 h6
    obtain ⟨harr, i0, hpi0, hsti0⟩ := h5 p (List.mem_cons_self p rest)
    have hpmem : p ∈ procs := mem_of_index procs hpi0
    have hpid : p.id ≠ -1 := by
      have := wf.id_pos p hpmem
      omega
    have hcount0 : mem.page_table.count p.id = 0 := h4 i0 p none hpi0 hsti0
    by_cases hfit : countFree mem.page_table <
        totalPagesNeeded mem.page_size p.piece_sizes
    · have halloc : allocate_memory mem p.id p.piece_sizes = (0, mem) := by
        rw [allocate_memory_eq mem p.id hpid p.piece_sizes, if_pos hfit]
      have hstep : drain procs clock mem (p :: rest) start =
          (mem, p :: rest, start) := by
        simp [drain, halloc]
      rw [hstep]
      exact ⟨h1, h2, h3, h4, h5, h6⟩
    · have halloc : allocate_memory mem p.id p.piece_sizes =
          (1, { mem with page_table := (claimLoop p.id mem.page_table
            (totalPagesNeeded mem.page_size p.piece_sizes)).1 }) := by
        rw [allocate_memory_eq mem p.id hpid p.piece_sizes, if_neg hfit]
      have hstart2 : setStart procs start p.id clock = start.set i0 (some clock) :=
        setStart_eq_set procs wf.ids_nodup start i0 p clock hpi0 h3
      have hstep : drain procs clock mem (p :: rest) start =
          drain procs clock
            { mem with page_table := (claimLoop p.id mem.page_table
              (totalPagesNeeded mem.page_size p.piece_sizes)).1 }
            rest (start.set i0 (some clock)) := by
        simp [drain, halloc, hstart2]
      rw [hstep]
      apply ih
      · exact h1
      · show (claimLoop p.id mem.page_table
          (totalPagesNeeded mem.page_size p.piece_sizes)).1.length = L
        rw [claimLoop_length]
        exact h2
      · rw [List.length_set]
        exact h3
      · intro i q st hq hstq
        by_cases hii : i = i0
        · subst hii
          have hi_lt : i < start.length := by
            obtain ⟨hlt, _⟩ := List.getElem?_eq_some.1 hsti0
            exact hlt
          rw [List.getElem?_set_self hi_lt] at hstq
          injection hstq with hstq
          rw [hpi0] at hq
          injection hq with hq
          subst hq
          subst hstq
          refine ⟨by omega, by omega, ?_⟩
          rw [if_pos (show clock + 1 ≤ clock + p.lifetime by
            have := wf.life_pos p hpmem
            omega)]
          show (claimLoop p.id mem.page_table
            (totalPagesNeeded mem.page_size p.piece_sizes)).1.count p.id =
            procNeeds ps p
          rw [claimLoop_count_self p.id hpid, hcount0, h1]
          rw [h1] at hfit
          simp only [procNeeds]
          omega
        · rw [List.getElem?_set_ne (Ne.symm hii)] at hstq
          have hold := h4 i q st hq hstq
          have hqmem : q ∈ procs := mem_of_index procs hq
          have hqid2 : q.id ≠ -1 := by
            have := wf.id_pos q hqmem
            omega
          have hqp : q.id ≠ p.id := fun he =>
            hii (ids_index_inj procs wf.ids_nodup hq hpi0 he)
          have hcq : (claimLoop p.id mem.page_table
              (totalPagesNeeded mem.page_size p.piece_sizes)).1.count q.id =
              mem.page_table.count q.id :=
            claimLoop_count_other p.id q.id hqp hqid2 _ _
          cases st with
          | none =>
            show (claimLoop p.id mem.page_table
              (totalPagesNeeded mem.page_size p.piece_sizes)).1.count q.id = 0
            rw [hcq]
            exact hold
          | some t =>
            obtain ⟨ha, hb, hc⟩ := hold
            exact ⟨ha, hb, by rw [hcq]; exact hc⟩
      · intro q hqrest
        obtain ⟨ha, i, hqi, hsti⟩ := h5 q (List.mem_cons_of_mem p hqrest)
        have hii : i ≠ i0 := by
          intro he
          subst he
          rw [hqi] at hpi0
          injection hpi0 with he2
          subst he2
          rw [List.map_cons, List.nodup_cons] at h6
          exact h6.1 (List.mem_map_of_mem Proc.id hqrest)
        refine ⟨ha, i, hqi, ?_⟩
        rw [List.getElem?_set_ne (Ne.symm hii)]
        exact hsti
      · rw [List.map_cons, List.nodup_cons] at h6
        exact h6.2

theorem tick_preserves_inv (procs : List Proc) (tm ps : Nat)
    (wf : Wf procs ps) (n : Nat) (s : SimState)
    (h : Inv procs tm ps n s.mem s.queue s.start) :
    Inv procs tm ps (n + 1) (tick procs n s).mem (tick procs n s).queue
      (tick procs n s).start := by
  obtain ⟨hps, hlen, hslen, hok, hqmem, hqnd⟩ := h
  have hcshape := completionsStep_shape n (procs.zip s.start) s.mem
    s.total_turnaround s.completed
  have hok2 := completions_preserve_startOk procs ps n wf s.mem s.start
    s.total_turnaround s.completed hok
  have hq1mem : ∀ p ∈ s.queue ++ procs.filter (fun p => p.arrival_time == n),
      p.arrival_time < n + 1 ∧
      ∃ i : Nat, procs[i]? = some p ∧ s.start[i]? = some none := by
    intro p hp
    rcases List.mem_append.1 hp with hold | hnew
    · obtain ⟨ha, i, h1, h2⟩ := hqmem p hold
      exact ⟨by omega, i, h1, h2⟩
    · rw [List.mem_filter] at hnew
      obtain ⟨hpmem, hbeq⟩ := hnew
      have harr : p.arrival_time = n := by
        simpa using hbeq
      obtain ⟨i, hi⟩ := List.getElem?_of_mem hpmem
      have hi_lt : i < s.start.length := by
        obtain ⟨hlt, _⟩ := List.getElem?_eq_some.1 hi
        rw [hslen]
        exact hlt
      obtain ⟨st, hst⟩ : ∃ st, s.start[i]? = some st :=
        ⟨s.start[i], List.getElem?_eq_getElem hi_lt⟩
      refine ⟨by omega, i, hi, ?_⟩
      cases st with
      | none => exact hst
      | some t =>
        exfalso
        obtain ⟨ht1, ht2, _⟩ := hok i p (some t) hi hst
        omega
  have hq1nd : ((s.queue ++ procs.filter
      (fun p => p.arrival_time == n)).map Proc.id).Nodup := by
    rw [List.map_append]
    refine List.nodup_append.2 ⟨hqnd, ?_, ?_⟩
    · exact List.Nodup.sublist
        ((List.filter_sublist procs).map Proc.id) wf.ids_nodup
    · intro a ha1 ha2
      rw [List.mem_map] at ha1 ha2
      obtain ⟨p1, hp1q, rfl⟩ := ha1
      obtain ⟨p2, hp2f, hideq⟩ := ha2
      rw [List.mem_filter] at hp2f
      obtain ⟨hp2mem, hbeq2⟩ := hp2f
      have harr2 : p2.arrival_time = n := by
        simpa using hbeq2
      obtain ⟨harr1, i1, hi1, _⟩ := hqmem p1 hp1q
      obtain ⟨i2, hi2⟩ := List.getElem?_of_mem hp2mem
      have hieq : i1 = i2 := ids_index_inj procs wf.ids_nodup hi1 hi2 hideq.symm
      subst hieq
      rw [hi1] at hi2
      injection hi2 with hi2
      subst hi2
      omega
  have hdrain := drain_preserves procs ps (tm / ps) n wf
    (s.queue ++ procs.filter (fun p => p.arrival_time == n))
    (completionsStep n s.mem s.total_turnaround s.completed
      (procs.zip s.start)).1 s.start
    (by rw [hcshape.1, hps]) (by rw [hcshape.2, hlen]) hslen hok2 hq1mem hq1nd
  exact ⟨hdrain.1, hdrain.2.1, hdrain.2.2.1, hdrain.2.2.2.1,
    hdrain.2.2.2.2.1, hdrain.2.2.2.2.2⟩

theorem inv_init (procs : List Proc) (tm ps : Nat) (wf : Wf procs ps) :
    Inv procs tm ps 0 (init_memory tm ps) []
      (List.replicate procs.length none) := by
  refine ⟨rfl, by simp [init_memory], by simp, ?_, ?_, ?_⟩
  · intro i p st hp hst
    have hnone : st = none := by
      rw [List.getElem?_replicate] at hst
      by_cases hlt : i < procs.length
      · rw [if_pos hlt] at hst
        injection hst with hst
        exact hst.symm
      · rw [if_neg hlt] at hst
        exact Option.noConfusion hst
    subst hnone
    show (init_memory tm ps).page_table.count p.id = 0
    have hpid : p.id ≠ -1 := by
      have := wf.id_pos p (mem_of_index procs hp)
      omega
    have hne : ((-1 : Int) == p.id) = false := by
      simp [Ne.symm hpid]
    show (List.replicate (tm / ps) (-1 : Int)).count p.id = 0
    rw [List.count_replicate, hne]
    rfl
  · intro p hp
    exact absurd hp (List.not_mem_nil p)
  · simp

theorem inv_simSteps (procs : List Proc) (tm ps : Nat) (wf : Wf procs ps) :
    ∀ n : Nat, Inv procs tm ps n (simSteps procs tm ps n).mem
      (simSteps procs tm ps n).queue (simSteps procs tm ps n).start := by
  intro n
  induction n with
  | zero => exact inv_init procs tm ps wf
  | succ k ih => exact tick_preserves_inv procs tm ps wf k _ ih

/-- C2: in every state the simulation loop reaches, each page-table entry
names at most one process (ids are unique), every admitted and not yet
completed process owns exactly the ceil-sum of its segment sizes over the page
size, and the number of owned frames never exceeds total_pages. -/
theorem simulation_frame_invariants (procs : List Proc) (tm ps : Nat)
    (hps : 0 < ps) (hid : ∀ p ∈ procs, 0 < p.id)
    (hlife : ∀ p ∈ procs, 0 < p.lifetime)
    (hnd : (procs.map Proc.id).Nodup) (n : Nat) :
    (∀ (f : Nat) (v : Int),
      (simSteps procs tm ps n).mem.page_table[f]? = some v →
      ∀ (i j : Nat) (p q : Proc), procs[i]? = some p → procs[j]? = some q →
        p.id = v → q.id = v → i = j) ∧
    (∀ (i : Nat) (p : Proc) (t : Nat), procs[i]? = some p →
      (simSteps procs tm ps n).start[i]? = some (some t) →
      n ≤ t + p.lifetime →
      (simSteps procs tm ps n).mem.page_table.count p.id = procNeeds ps p) ∧
    ((simSteps procs tm ps n).mem.page_table.filter
      (fun v => v != -1)).length ≤ tm / ps := by
  have wf : Wf procs ps := ⟨hps, hid, hlife, hnd⟩
  have hinv := inv_simSteps procs tm ps wf n
  refine ⟨?_, ?_, ?_⟩
  · intro f v _ i j p q hi hj hp hq
    exact ids_index_inj procs hnd hi hj (hp.trans hq.symm)
  · intro i p t hi hst hrun
    obtain ⟨_, _, hc⟩ := hinv.ok i p (some t) hi hst
    rw [if_pos hrun] at hc
    exact hc
  · calc ((simSteps procs tm ps n).mem.page_table.filter
        (fun v => v != -1)).length
        ≤ (simSteps procs tm ps n).mem.page_table.length :=
          List.length_filter_le _ _
    _ = tm / ps := hinv.len_eq

/-- C2 witness: one process, arrived and admitted at tick 0 with two pages of
a 150 KB segment, checked after one tick. -/
theorem simulation_frame_invariants_witness :
    (0 < 100) ∧ (∀ p ∈ [Proc.mk 1 0 2 [150]], 0 < p.id) ∧
    (∀ p ∈ [Proc.mk 1 0 2 [150]], 0 < p.lifetime) ∧
    (([Proc.mk 1 0 2 [150]].map Proc.id).Nodup) ∧
    ((∀ (f : Nat) (v : Int),
      (simSteps [Proc.mk 1 0 2 [150]] 200 100 1).mem.page_table[f]? = some v →
      ∀ (i j : Nat) (p q : Proc), [Proc.mk 1 0 2 [150]][i]? = some p →
        [Proc.mk 1 0 2 [150]][j]? = some q → p.id = v → q.id = v → i = j) ∧
    (∀ (i : Nat) (p : Proc) (t : Nat), [Proc.mk 1 0 2 [150]][i]? = some p →
      (simSteps [Proc.mk 1 0 2 [150]] 200 100 1).start[i]? = some (some t) →
      1 ≤ t + p.lifetime →
      (simSteps [Proc.mk 1 0 2 [150]] 200 100 1).mem.page_table.count p.id =
        procNeeds 100 p) ∧
    ((simSteps [Proc.mk 1 0 2 [150]] 200 100 1).mem.page_table.filter
      (fun v => v != -1)).length ≤ 200 / 100) :=
  ⟨by decide, by decide, by decide, by decide,
    simulation_frame_invariants [Proc.mk 1 0 2 [150]] 200 100
      (by decide) (by decide) (by decide) (by decide) 1⟩

end Paging
